import Mathlib

/-!
# Numeric_Overflow.cpp : checked repeated addition and subtraction

A shallow embedding of the two template functions `add_numbers` and
`subtract_numbers` of `Numeric_Overflow.cpp`, instantiated at the integral
types the driver uses, together with theorems about them.

Values of the template type `T` are mathematical integers (`Int`); every
arithmetic operation of the source is followed by the reduction the machine
performs: the operands of `+` and `-` undergo the integer promotions, so the
operation is carried out in `int` when `T` is narrower than `int` and in `T`
otherwise, and the compound assignments `+=` and `-=` convert the value back
to `T`.  Both reductions are two's-complement wrap-arounds (`wrap`).
The `bool` return value and the `result` out-parameter are returned together
as a pair `(flag, result)`.

The same two functions are also given as templates over an arbitrary type with
its operations (`Template.add_numbers`, `Template.subtract_numbers`); the
integral types (`integral`) and the floating-point types (`floating`) are
instances.
-/

namespace NumericOverflow

/-- An integral instantiation of the template parameter `T`: its signedness and
its width in bits (at least one). -/
structure Domain where
  signed : Bool
  bits : Nat
  pos : 0 < bits

/-- `signed char` / 8-bit signed. -/
def int8 : Domain := ⟨true, 8, by decide⟩
/-- `short int` / 16-bit signed. -/
def int16 : Domain := ⟨true, 16, by decide⟩
/-- `int` / 32-bit signed. -/
def int32 : Domain := ⟨true, 32, by decide⟩
/-- `long long` / 64-bit signed. -/
def int64 : Domain := ⟨true, 64, by decide⟩
/-- `unsigned char` / 8-bit unsigned. -/
def uint8 : Domain := ⟨false, 8, by decide⟩
/-- `unsigned short int` / 16-bit unsigned. -/
def uint16 : Domain := ⟨false, 16, by decide⟩
/-- `unsigned int` / 32-bit unsigned. -/
def uint32 : Domain := ⟨false, 32, by decide⟩
/-- `std::numeric_limits<T>::max()`. -/
def numeric_limits_max (D : Domain) : Int :=
  if D.signed then 2 ^ (D.bits - 1) - 1 else 2 ^ D.bits - 1

/-- `std::numeric_limits<T>::min()`. -/
def numeric_limits_min (D : Domain) : Int :=
  if D.signed then -(2 ^ (D.bits - 1)) else 0

/-- The value `x` is representable in the type: `min() ≤ x ≤ max()`. -/
def InDom (D : Domain) (x : Int) : Prop :=
  numeric_limits_min D ≤ x ∧ x ≤ numeric_limits_max D

instance instDecidableInDom (D : Domain) (x : Int) : Decidable (InDom D x) :=
  inferInstanceAs (Decidable (numeric_limits_min D ≤ x ∧ x ≤ numeric_limits_max D))

/-- Reduction of an exact integer to the fixed-width type: modulo `2 ^ bits`,
into `[0, 2^bits)` for an unsigned type and into `[-2^(bits-1), 2^(bits-1))`
for a signed one. -/
def wrap (D : Domain) (x : Int) : Int :=
  if D.signed then (x + 2 ^ (D.bits - 1)) % 2 ^ D.bits - 2 ^ (D.bits - 1)
  else x % 2 ^ D.bits

/-- The type in which `a + b` and `a - b` are evaluated for operands of type
`T`: the integer promotions turn a type narrower than `int` (32 bits) into
`int`; any other type is kept. -/
def promoted (D : Domain) : Domain :=
  if D.bits < 32 then int32 else D

/-- The machine value of a binary `+` / `-` whose exact value is `x`. -/
def arith (D : Domain) (x : Int) : Int :=
  wrap (promoted D) x

/-- The condition of the `if` in the loop of `add_numbers` (source lines 28-29):
`(increment > 0 && result > max() - increment) ||
 (increment < 0 && result < min() - increment)`. -/
def add_check (D : Domain) (increment result : Int) : Bool :=
  (decide (increment > 0) &&
      decide (result > arith D (numeric_limits_max D - increment))) ||
  (decide (increment < 0) &&
      decide (result < arith D (numeric_limits_min D - increment)))

/-- The statement `result += increment;` (source line 33): the sum is formed in
the promoted type and converted back to `T`. -/
def add_assign (D : Domain) (result increment : Int) : Int :=
  wrap D (arith D (result + increment))

/-- The `for` loop of `add_numbers` with `n` iterations left and the current
value of `result`; yields the returned flag and the final `result`. -/
def add_loop (D : Domain) (increment : Int) : Nat → Int → Bool × Int
  | 0, result => (true, result)
  | n + 1, result =>
    if add_check D increment result then (false, result)
    else add_loop D increment n (add_assign D result increment)

/-- The function `add_numbers<T>(start, increment, steps, result)`: the returned
`bool` and the value left in `result`. -/
def add_numbers (D : Domain) (start increment : Int) (steps : Nat) : Bool × Int :=
  add_loop D increment steps start

/-- The condition of the `if` in the loop of `subtract_numbers` (source lines
58-59): `(decrement > 0 && result < min() + decrement) ||
 (decrement < 0 && result > max() + decrement)`. -/
def subtract_check (D : Domain) (decrement result : Int) : Bool :=
  (decide (decrement > 0) &&
      decide (result < arith D (numeric_limits_min D + decrement))) ||
  (decide (decrement < 0) &&
      decide (result > arith D (numeric_limits_max D + decrement)))

/-- The statement `result -= decrement;` (source line 63). -/
def subtract_assign (D : Domain) (result decrement : Int) : Int :=
  wrap D (arith D (result - decrement))

/-- The `for` loop of `subtract_numbers` with `n` iterations left. -/
def subtract_loop (D : Domain) (decrement : Int) : Nat → Int → Bool × Int
  | 0, result => (true, result)
  | n + 1, result =>
    if subtract_check D decrement result then (false, result)
    else subtract_loop D decrement n (subtract_assign D result decrement)

/-- The function `subtract_numbers<T>(start, decrement, steps, result)`: the
returned `bool` and the value left in `result`. -/
def subtract_numbers (D : Domain) (start decrement : Int) (steps : Nat) : Bool × Int :=
  subtract_loop D decrement steps start

/-! ## The templates over an arbitrary numeric type

The two functions are templates: the same text is compiled for every type `T`
the driver names, with that type's operators and `std::numeric_limits`.  The
definitions below are that text with the operations of `T` as a parameter.
-/

/-- The operations the templates use on their type parameter `T`.  `P` is the
type in which the binary operators are evaluated (the promoted type of `T`). -/
structure Ops (T P : Type) where
  /-- Conversion of an operand of type `T` to the type of the operation. -/
  promote : T → P
  /-- The literal `0`, converted to the type of the comparison. -/
  zero : P
  /-- The comparison `a < b`; `a > b` is `b < a`. -/
  lt : P → P → Bool
  /-- The binary `a + b`. -/
  add : P → P → P
  /-- The binary `a - b`. -/
  sub : P → P → P
  /-- Conversion back to `T`, as performed by `+=` and `-=`. -/
  narrow : P → T
  /-- `std::numeric_limits<T>::max()`. -/
  max : T
  /-- `std::numeric_limits<T>::min()`. -/
  min : T

/-- The condition of the `if` in the loop of `add_numbers` (source lines 28-29). -/
def Template.add_check {T P : Type} (O : Ops T P) (increment result : T) : Bool :=
  (O.lt O.zero (O.promote increment) &&
      O.lt (O.sub (O.promote O.max) (O.promote increment)) (O.promote result)) ||
  (O.lt (O.promote increment) O.zero &&
      O.lt (O.promote result) (O.sub (O.promote O.min) (O.promote increment)))

/-- The statement `result += increment;` (source line 33). -/
def Template.add_assign {T P : Type} (O : Ops T P) (result increment : T) : T :=
  O.narrow (O.add (O.promote result) (O.promote increment))

/-- The `for` loop of `add_numbers` with `n` iterations left. -/
def Template.add_loop {T P : Type} (O : Ops T P) (increment : T) : Nat → T → Bool × T
  | 0, result => (true, result)
  | n + 1, result =>
    if Template.add_check O increment result then (false, result)
    else Template.add_loop O increment n (Template.add_assign O result increment)

/-- The template `add_numbers<T>`: the returned `bool` and the value left in
`result`. -/
def Template.add_numbers {T P : Type} (O : Ops T P) (start increment : T) (steps : Nat) :
    Bool × T :=
  Template.add_loop O increment steps start

/-- The condition of the `if` in the loop of `subtract_numbers` (source lines
58-59). -/
def Template.subtract_check {T P : Type} (O : Ops T P) (decrement result : T) : Bool :=
  (O.lt O.zero (O.promote decrement) &&
      O.lt (O.promote result) (O.add (O.promote O.min) (O.promote decrement))) ||
  (O.lt (O.promote decrement) O.zero &&
      O.lt (O.add (O.promote O.max) (O.promote decrement)) (O.promote result))

/-- The statement `result -= decrement;` (source line 63). -/
def Template.subtract_assign {T P : Type} (O : Ops T P) (result decrement : T) : T :=
  O.narrow (O.sub (O.promote result) (O.promote decrement))

/-- The `for` loop of `subtract_numbers` with `n` iterations left. -/
def Template.subtract_loop {T P : Type} (O : Ops T P) (decrement : T) : Nat → T → Bool × T
  | 0, result => (true, result)
  | n + 1, result =>
    if Template.subtract_check O decrement result then (false, result)
    else Template.subtract_loop O decrement n (Template.subtract_assign O result decrement)

/-- The template `subtract_numbers<T>`: the returned `bool` and the value left
in `result`. -/
def Template.subtract_numbers {T P : Type} (O : Ops T P) (start decrement : T) (steps : Nat) :
    Bool × T :=
  Template.subtract_loop O decrement steps start

/-- The operations of an integral type: values are exact integers, a binary
operation is reduced to the promoted type and `+=` / `-=` reduce to `T`. -/
def integral (D : Domain) : Ops Int Int where
  promote := fun x => x
  zero := 0
  lt := fun a b => decide (a < b)
  add := fun a b => arith D (a + b)
  sub := fun a b => arith D (a - b)
  narrow := wrap D
  max := numeric_limits_max D
  min := numeric_limits_min D

/-! ## Floating-point types

`float`, `double` and `long double` are binary floating-point formats.  A value
is a NaN, a signed infinity, a signed zero or a non-zero finite number; the
arithmetic is that of IEEE 754 in the default rounding mode (to nearest, ties
to even).
-/

/-- A binary floating-point format: the number of significand bits (the hidden
bit included) and the largest exponent. -/
structure FloatFormat where
  prec : Nat
  emax : Int

/-- `float`. -/
def binary32 : FloatFormat := ⟨24, 127⟩
/-- `double`. -/
def binary64 : FloatFormat := ⟨53, 1023⟩
/-- `long double` in the x87 extended format. -/
def extended80 : FloatFormat := ⟨64, 16383⟩

/-- A floating-point value.  `finite q` carries a non-zero number of the format. -/
inductive FloatVal where
  | nan
  | inf (negative : Bool)
  | zero (negative : Bool)
  | finite (q : Rat)
  deriving DecidableEq

/-- The smallest exponent of a normal number. -/
def FloatFormat.emin (F : FloatFormat) : Int := 1 - F.emax

/-- The largest finite number of the format, `(2^prec - 1) * 2^(emax - prec + 1)`. -/
def FloatFormat.max_finite (F : FloatFormat) : Rat :=
  (2 ^ F.prec - 1) * 2 ^ (F.emax - (F.prec : Int) + 1)

/-- The smallest positive normal number of the format, `2^emin`. -/
def FloatFormat.min_normal (F : FloatFormat) : Rat := 2 ^ F.emin

/-- Rounding of a non-negative rational to the nearest integer, ties to even. -/
def round_half_even (x : Rat) : Int :=
  if x - ⌊x⌋ < 1 / 2 then ⌊x⌋
  else if 1 / 2 < x - ⌊x⌋ then ⌊x⌋ + 1
  else if ⌊x⌋ % 2 = 0 then ⌊x⌋ else ⌊x⌋ + 1

/-- Rounding of an exact real result to the format: to the nearest multiple of
the unit in the last place of its binade (of the subnormal spacing below
`2^emin`), ties to even; a magnitude that rounds above the largest finite
number gives an infinity, one that rounds to nothing gives a zero. -/
def round_to_format (F : FloatFormat) (q : Rat) : FloatVal :=
  if q = 0 then FloatVal.zero false
  else
    let ulp : Rat := 2 ^ (Max.max (Int.log 2 |q|) F.emin - (F.prec : Int) + 1)
    let v : Rat := round_half_even (|q| / ulp) * ulp
    if F.max_finite < v then FloatVal.inf (decide (q < 0))
    else if v = 0 then FloatVal.zero (decide (q < 0))
    else FloatVal.finite (if q < 0 then -v else v)

/-- The unary minus. -/
def FloatVal.neg : FloatVal → FloatVal
  | FloatVal.nan => FloatVal.nan
  | FloatVal.inf s => FloatVal.inf (!s)
  | FloatVal.zero s => FloatVal.zero (!s)
  | FloatVal.finite q => FloatVal.finite (-q)

/-- The sum `a + b`: NaN propagates, infinities of opposite sign give NaN, a
sum of zeros is `-0` only when both are, adding a zero to a finite number is
exact, and any other sum is the rounded exact sum. -/
def float_add (F : FloatFormat) : FloatVal → FloatVal → FloatVal
  | FloatVal.nan, _ => FloatVal.nan
  | _, FloatVal.nan => FloatVal.nan
  | FloatVal.inf s, FloatVal.inf t => if s = t then FloatVal.inf s else FloatVal.nan
  | FloatVal.inf s, _ => FloatVal.inf s
  | _, FloatVal.inf t => FloatVal.inf t
  | FloatVal.zero s, FloatVal.zero t => FloatVal.zero (s && t)
  | FloatVal.zero _, FloatVal.finite q => FloatVal.finite q
  | FloatVal.finite p, FloatVal.zero _ => FloatVal.finite p
  | FloatVal.finite p, FloatVal.finite q => round_to_format F (p + q)

/-- The difference `a - b`, which is `a + (-b)`. -/
def float_sub (F : FloatFormat) (a b : FloatVal) : FloatVal :=
  float_add F a (FloatVal.neg b)

/-- The comparison `a < b`: false when an operand is NaN; the two zeros are
equal. -/
def float_lt : FloatVal → FloatVal → Bool
  | FloatVal.nan, _ => false
  | _, FloatVal.nan => false
  | FloatVal.inf s, FloatVal.inf t => s && !t
  | FloatVal.inf s, _ => s
  | _, FloatVal.inf t => !t
  | FloatVal.zero _, FloatVal.zero _ => false
  | FloatVal.zero _, FloatVal.finite q => decide (0 < q)
  | FloatVal.finite p, FloatVal.zero _ => decide (p < 0)
  | FloatVal.finite p, FloatVal.finite q => decide (p < q)

/-- The operations of a floating-point type: no promotion and no narrowing,
the literal `0` is `+0.0`, `max()` is the largest finite number and `min()` the
smallest positive normal number. -/
def floating (F : FloatFormat) : Ops FloatVal FloatVal where
  promote := fun x => x
  zero := FloatVal.zero false
  lt := float_lt
  add := float_add F
  sub := float_sub F
  narrow := fun x => x
  max := FloatVal.finite F.max_finite
  min := FloatVal.finite F.min_normal

/-! ## Representable values and the wrap-around -/

theorem two_pow_bits (D : Domain) : (2 : Int) ^ D.bits = 2 * 2 ^ (D.bits - 1) := by
  have h := D.pos
  obtain ⟨k, hk⟩ : ∃ k, D.bits = k + 1 := ⟨D.bits - 1, by omega⟩
  rw [hk, pow_succ]
  simp
  ring

theorem half_pos (D : Domain) : (0 : Int) < 2 ^ (D.bits - 1) := by positivity

theorem min_le_zero (D : Domain) : numeric_limits_min D ≤ 0 := by
  have := half_pos D
  unfold numeric_limits_min
  split <;> omega

theorem zero_le_max (D : Domain) : 0 ≤ numeric_limits_max D := by
  have := half_pos D
  have := two_pow_bits D
  unfold numeric_limits_max
  split <;> omega

theorem zero_inDom (D : Domain) : InDom D 0 := ⟨min_le_zero D, zero_le_max D⟩

theorem max_inDom (D : Domain) : InDom D (numeric_limits_max D) :=
  ⟨le_trans (min_le_zero D) (zero_le_max D), le_refl _⟩

theorem wrap_of_inDom (D : Domain) (x : Int) (h : InDom D x) : wrap D x = x := by
  have hp := half_pos D
  have h2 := two_pow_bits D
  unfold InDom numeric_limits_min numeric_limits_max at h
  unfold wrap
  split
  · rename_i hs
    simp only [hs, if_true] at h
    rw [Int.emod_eq_of_lt (by omega) (by omega)]
    omega
  · rename_i hs
    simp only [hs] at h
    exact Int.emod_eq_of_lt (by simpa using h.1) (by omega)

theorem inDom_promoted (D : Domain) (x : Int) (h : InDom D x) : InDom (promoted D) x := by
  unfold promoted
  split
  · rename_i hb
    have hp := half_pos D
    have h2 := two_pow_bits D
    have h31 : (2 : Int) ^ D.bits ≤ 2 ^ 31 := by
      exact_mod_cast Nat.pow_le_pow_right (by norm_num) (by omega : D.bits ≤ 31)
    unfold InDom numeric_limits_min numeric_limits_max at *
    simp only [int32, if_true]
    norm_num
    split at h <;> omega
  · exact h

theorem arith_of_inDom (D : Domain) (x : Int) (h : InDom D x) : arith D x = x :=
  wrap_of_inDom (promoted D) x (inDom_promoted D x h)

theorem signed_of_neg (D : Domain) (x : Int) (h : InDom D x) (hx : x < 0) :
    D.signed = true := by
  unfold InDom numeric_limits_min at h
  by_contra hs
  simp only [hs] at h
  simp at h
  omega

theorem min_add_max (D : Domain) (hs : D.signed = true) :
    numeric_limits_min D + numeric_limits_max D = -1 := by
  unfold numeric_limits_min numeric_limits_max
  simp only [hs, if_true]
  omega

theorem max_sub_inDom (D : Domain) (increment : Int) (h : InDom D increment)
    (hi : 0 < increment) : InDom D (numeric_limits_max D - increment) := by
  have := min_le_zero D
  unfold InDom at *
  omega

theorem min_sub_inDom (D : Domain) (increment : Int) (h : InDom D increment)
    (hi : increment < 0) : InDom D (numeric_limits_min D - increment) := by
  have := zero_le_max D
  unfold InDom at *
  omega

theorem min_add_inDom (D : Domain) (decrement : Int) (h : InDom D decrement)
    (hd : 0 < decrement) : InDom D (numeric_limits_min D + decrement) := by
  have := min_le_zero D
  unfold InDom at *
  omega

theorem max_add_inDom (D : Domain) (decrement : Int) (h : InDom D decrement)
    (hd : decrement < 0) : InDom D (numeric_limits_max D + decrement) := by
  have := min_add_max D (signed_of_neg D decrement h hd)
  have := zero_le_max D
  unfold InDom at *
  omega

/-! ## One iteration -/

theorem add_check_iff (D : Domain) (increment result : Int)
    (hi : InDom D increment) (hr : InDom D result) :
    add_check D increment result = true ↔ ¬ InDom D (result + increment) := by
  unfold add_check
  rcases lt_trichotomy increment 0 with hneg | hzero | hpos
  · rw [arith_of_inDom D _ (min_sub_inDom D increment hi hneg)]
    have hn : ¬ increment > 0 := by omega
    simp only [hn, hneg, decide_False, decide_True, Bool.false_and, Bool.true_and,
      Bool.false_or, decide_eq_true_eq]
    unfold InDom at *
    omega
  · subst hzero
    simp
    exact hr
  · rw [arith_of_inDom D _ (max_sub_inDom D increment hi hpos)]
    have hn : ¬ increment < 0 := by omega
    simp only [hn, hpos, gt_iff_lt, decide_False, decide_True, Bool.false_and, Bool.true_and,
      Bool.or_false, decide_eq_true_eq]
    unfold InDom at *
    omega

theorem add_assign_exact (D : Domain) (increment result : Int)
    (h : InDom D (result + increment)) : add_assign D result increment = result + increment := by
  unfold add_assign
  rw [arith_of_inDom D _ h, wrap_of_inDom D _ h]

theorem subtract_check_iff (D : Domain) (decrement result : Int)
    (hd : InDom D decrement) (hr : InDom D result) :
    subtract_check D decrement result = true ↔ ¬ InDom D (result - decrement) := by
  unfold subtract_check
  rcases lt_trichotomy decrement 0 with hneg | hzero | hpos
  · rw [arith_of_inDom D _ (max_add_inDom D decrement hd hneg)]
    have hn : ¬ decrement > 0 := by omega
    simp only [hn, hneg, gt_iff_lt, decide_False, decide_True, Bool.false_and, Bool.true_and,
      Bool.false_or, decide_eq_true_eq]
    unfold InDom at *
    omega
  · subst hzero
    simp
    exact hr
  · rw [arith_of_inDom D _ (min_add_inDom D decrement hd hpos)]
    have hn : ¬ decrement < 0 := by omega
    simp only [hn, hpos, gt_iff_lt, decide_False, decide_True, Bool.false_and, Bool.true_and,
      Bool.or_false, decide_eq_true_eq]
    unfold InDom at *
    omega

theorem subtract_assign_exact (D : Domain) (decrement result : Int)
    (h : InDom D (result - decrement)) :
    subtract_assign D result decrement = result - decrement := by
  unfold subtract_assign
  rw [arith_of_inDom D _ h, wrap_of_inDom D _ h]

/-! ## The loops -/

theorem inDom_between (D : Domain) (r step : Int) (n : Nat)
    (hr : InDom D r) (hn : InDom D (r + ((n : Int) + 1) * step)) : InDom D (r + step) := by
  have e : ((n : Int) + 1) * step = n * step + step := by ring
  rw [e] at hn
  have hn0 : (0 : Int) ≤ n := Int.ofNat_nonneg n
  rcases le_total 0 step with hs | hs
  · have := mul_nonneg hn0 hs
    unfold InDom at *
    omega
  · have := mul_nonpos_of_nonneg_of_nonpos hn0 hs
    unfold InDom at *
    omega

theorem add_loop_append (D : Domain) (increment : Int) (m n : Nat) (r : Int) :
    add_loop D increment (m + n) r =
      if (add_loop D increment m r).1 then add_loop D increment n (add_loop D increment m r).2
      else add_loop D increment m r := by
  induction m generalizing r with
  | zero => simp [add_loop]
  | succ m ih =>
    rw [Nat.succ_add]
    simp only [add_loop]
    by_cases hc : add_check D increment r = true
    · simp [hc]
    · simp only [hc, if_false]
      exact ih _

theorem subtract_loop_append (D : Domain) (decrement : Int) (m n : Nat) (r : Int) :
    subtract_loop D decrement (m + n) r =
      if (subtract_loop D decrement m r).1 then
        subtract_loop D decrement n (subtract_loop D decrement m r).2
      else subtract_loop D decrement m r := by
  induction m generalizing r with
  | zero => simp [subtract_loop]
  | succ m ih =>
    rw [Nat.succ_add]
    simp only [subtract_loop]
    by_cases hc : subtract_check D decrement r = true
    · simp [hc]
    · simp only [hc, if_false]
      exact ih _

theorem add_loop_ok (D : Domain) (increment : Int) (hi : InDom D increment) (n : Nat) (r : Int)
    (hr : InDom D r) (hn : InDom D (r + n * increment)) :
    add_loop D increment n r = (true, r + n * increment) := by
  induction n generalizing r with
  | zero => simp [add_loop]
  | succ n ih =>
    have hn1 : InDom D (r + ((n : Int) + 1) * increment) := by exact_mod_cast hn
    have h1 : InDom D (r + increment) := inDom_between D r increment n hr hn1
    have hc : ¬ add_check D increment r = true := by
      rw [add_check_iff D increment r hi hr]
      exact not_not.mpr h1
    simp only [add_loop, hc, if_false]
    rw [add_assign_exact D increment r h1]
    have e : r + increment + (n : Int) * increment = r + ((n : Int) + 1) * increment := by ring
    rw [ih (r + increment) h1 (by rw [e]; exact hn1), e]
    push_cast
    rfl

theorem subtract_loop_ok (D : Domain) (decrement : Int) (hd : InDom D decrement) (n : Nat)
    (r : Int) (hr : InDom D r) (hn : InDom D (r - n * decrement)) :
    subtract_loop D decrement n r = (true, r - n * decrement) := by
  induction n generalizing r with
  | zero => simp [subtract_loop]
  | succ n ih =>
    have hn1 : InDom D (r + ((n : Int) + 1) * (-decrement)) := by
      have e : r + ((n : Int) + 1) * (-decrement) = r - ((n + 1 : Nat) : Int) * decrement := by
        push_cast; ring
      rw [e]; exact hn
    have h1 : InDom D (r - decrement) := by
      have := inDom_between D r (-decrement) n hr hn1
      rwa [← sub_eq_add_neg] at this
    have hc : ¬ subtract_check D decrement r = true := by
      rw [subtract_check_iff D decrement r hd hr]
      exact not_not.mpr h1
    simp only [subtract_loop, hc, if_false]
    rw [subtract_assign_exact D decrement r h1]
    have e : r - decrement - (n : Int) * decrement = r - ((n + 1 : Nat) : Int) * decrement := by
      push_cast; ring
    rw [ih (r - decrement) h1 (by rw [e]; exact hn), e]
    simp

theorem add_loop_stop (D : Domain) (increment : Int) (hi : InDom D increment) (n : Nat)
    (r : Int) (hr : InDom D r) (hn : ¬ InDom D (r + n * increment)) :
    ∃ k : Nat, k < n ∧ add_loop D increment n r = (false, r + k * increment) ∧
      InDom D (r + k * increment) ∧ ¬ InDom D (r + ((k : Int) + 1) * increment) := by
  induction n generalizing r with
  | zero => simp at hn; exact absurd hr hn
  | succ n ih =>
    by_cases hc : add_check D increment r = true
    · refine ⟨0, Nat.succ_pos n, ?_, ?_, ?_⟩
      · simp [add_loop, hc]
      · simpa using hr
      · have := (add_check_iff D increment r hi hr).mp hc
        simpa using this
    · have h1 : InDom D (r + increment) := by
        by_contra h
        exact hc ((add_check_iff D increment r hi hr).mpr h)
      have e : r + increment + (n : Int) * increment = r + ((n + 1 : Nat) : Int) * increment := by
        push_cast; ring
      obtain ⟨k, hk, hres, hin, hout⟩ := ih (r + increment) h1 (by rw [e]; exact hn)
      refine ⟨k + 1, Nat.succ_lt_succ hk, ?_, ?_, ?_⟩
      · simp only [add_loop, hc]
        rw [add_assign_exact D increment r h1]
        simp only [Bool.false_eq_true, if_false, hres]
        congr 1
        push_cast; ring
      · have e2 : r + ((k + 1 : Nat) : Int) * increment = r + increment + k * increment := by
          push_cast; ring
        rw [e2]; exact hin
      · have e3 : r + (((k + 1 : Nat) : Int) + 1) * increment
            = r + increment + ((k : Int) + 1) * increment := by
          push_cast; ring
        rw [e3]; exact hout

theorem subtract_loop_stop (D : Domain) (decrement : Int) (hd : InDom D decrement) (n : Nat)
    (r : Int) (hr : InDom D r) (hn : ¬ InDom D (r - n * decrement)) :
    ∃ k : Nat, k < n ∧ subtract_loop D decrement n r = (false, r - k * decrement) ∧
      InDom D (r - k * decrement) ∧ ¬ InDom D (r - ((k : Int) + 1) * decrement) := by
  induction n generalizing r with
  | zero => simp at hn; exact absurd hr hn
  | succ n ih =>
    by_cases hc : subtract_check D decrement r = true
    · refine ⟨0, Nat.succ_pos n, ?_, ?_, ?_⟩
      · simp [subtract_loop, hc]
      · simpa using hr
      · have := (subtract_check_iff D decrement r hd hr).mp hc
        simpa using this
    · have h1 : InDom D (r - decrement) := by
        by_contra h
        exact hc ((subtract_check_iff D decrement r hd hr).mpr h)
      have e : r - decrement - (n : Int) * decrement = r - ((n + 1 : Nat) : Int) * decrement := by
        push_cast; ring
      obtain ⟨k, hk, hres, hin, hout⟩ := ih (r - decrement) h1 (by rw [e]; exact hn)
      refine ⟨k + 1, Nat.succ_lt_succ hk, ?_, ?_, ?_⟩
      · simp only [subtract_loop, hc]
        rw [subtract_assign_exact D decrement r h1]
        simp only [Bool.false_eq_true, if_false, hres]
        congr 1
        push_cast; ring
      · have e2 : r - ((k + 1 : Nat) : Int) * decrement = r - decrement - k * decrement := by
          push_cast; ring
        rw [e2]; exact hin
      · have e3 : r - (((k + 1 : Nat) : Int) + 1) * decrement
            = r - decrement - ((k : Int) + 1) * decrement := by
          push_cast; ring
        rw [e3]; exact hout

theorem add_loop_inDom (D : Domain) (increment : Int) (hi : InDom D increment) (n : Nat)
    (r : Int) (hr : InDom D r) : InDom D (add_loop D increment n r).2 := by
  by_cases hn : InDom D (r + n * increment)
  · rw [add_loop_ok D increment hi n r hr hn]
    exact hn
  · obtain ⟨k, _, hres, hin, _⟩ := add_loop_stop D increment hi n r hr hn
    rw [hres]
    exact hin

theorem subtract_loop_inDom (D : Domain) (decrement : Int) (hd : InDom D decrement) (n : Nat)
    (r : Int) (hr : InDom D r) : InDom D (subtract_loop D decrement n r).2 := by
  by_cases hn : InDom D (r - n * decrement)
  · rw [subtract_loop_ok D decrement hd n r hr hn]
    exact hn
  · obtain ⟨k, _, hres, hin, _⟩ := subtract_loop_stop D decrement hd n r hr hn
    rw [hres]
    exact hin

/-! ## The driver's inputs: `max() / 5` -/

theorem max_div_five_inDom (D : Domain) : InDom D (numeric_limits_max D / 5) := by
  have h0 := zero_le_max D
  have hm := min_le_zero D
  unfold InDom
  omega

theorem max_ge_of_bits (D : Domain) (hb : 8 ≤ D.bits) : 127 ≤ numeric_limits_max D := by
  have h7 : (2 : Int) ^ 7 ≤ 2 ^ (D.bits - 1) := by
    exact_mod_cast Nat.pow_le_pow_right (by norm_num) (by omega : 7 ≤ D.bits - 1)
  have h2 := two_pow_bits D
  unfold numeric_limits_max
  norm_num at h7
  split <;> omega

/-! ## Claims about `add_numbers` and `subtract_numbers` -/

/-- C1: in every integer domain, for every positive increment of the domain and
every step count with `increment * steps ≤ max()` (exact arithmetic),
`add_numbers(0, increment, steps)` returns `true` and leaves exactly
`increment * steps` in `result`. -/
theorem add_numbers_from_zero (D : Domain) (increment : Int) (steps : Nat)
    (hi : InDom D increment) (hpos : 0 < increment)
    (hfit : increment * steps ≤ numeric_limits_max D) :
    add_numbers D 0 increment steps = (true, increment * steps) := by
  have hn : InDom D (0 + (steps : Int) * increment) := by
    have h0 : (0 : Int) ≤ (steps : Int) * increment :=
      mul_nonneg (Int.ofNat_nonneg steps) (le_of_lt hpos)
    have hm := min_le_zero D
    have e : (steps : Int) * increment = increment * steps := mul_comm _ _
    unfold InDom
    omega
  unfold add_numbers
  rw [add_loop_ok D increment hi steps 0 (zero_inDom D) hn]
  congr 1
  ring

/-- Witness for C1: the 8-bit unsigned domain, increment 51, five steps. -/
theorem add_numbers_from_zero_witness :
    InDom uint8 51 ∧ (0 : Int) < 51 ∧ (51 : Int) * ((5 : Nat) : Int) ≤ numeric_limits_max uint8 ∧
      add_numbers uint8 0 51 5 = (true, (51 : Int) * ((5 : Nat) : Int)) :=
  ⟨by decide, by decide, by decide,
    add_numbers_from_zero uint8 51 5 (by decide) (by decide) (by decide)⟩

/-- C2: in every integral domain of at least 8 bits, signed or unsigned (in
particular the 8-, 16-, 32- and 64-bit ones), `add_numbers(0, max() / 5, 6)`
returns `false`. -/
theorem add_numbers_six_steps_overflows (D : Domain) (hb : 8 ≤ D.bits) :
    (add_numbers D 0 (numeric_limits_max D / 5) 6).1 = false := by
  have hM := max_ge_of_bits D hb
  have hn : ¬ InDom D (0 + ((6 : Nat) : Int) * (numeric_limits_max D / 5)) := by
    unfold InDom
    push_cast
    omega
  obtain ⟨k, _, hres, _, _⟩ :=
    add_loop_stop D _ (max_div_five_inDom D) 6 0 (zero_inDom D) hn
  unfold add_numbers
  rw [hres]

/-- Witness for C2: the 8-bit unsigned domain, where `max() / 5 = 51`. -/
theorem add_numbers_six_steps_overflows_witness :
    8 ≤ uint8.bits ∧ numeric_limits_max uint8 / 5 = 51 ∧
      (add_numbers uint8 0 (numeric_limits_max uint8 / 5) 6).1 = false :=
  ⟨by decide, by decide, add_numbers_six_steps_overflows uint8 (by decide)⟩

/-- C3, refuted as stated: in the 8-bit signed domain `max() = 127` and
`max() / 5 = 25`, and `subtract_numbers(127, 25, 6)` returns `true` with result
`-23`; no underflow is reported. -/
theorem subtract_numbers_six_steps_signed_succeeds :
    numeric_limits_max int8 = 127 ∧ numeric_limits_max int8 / 5 = 25 ∧
      subtract_numbers int8 (numeric_limits_max int8) (numeric_limits_max int8 / 5) 6
        = (true, -23) := by
  decide

/-- C3, amended: in every unsigned integral domain of at least 8 bits
`subtract_numbers(max(), max() / 5, 6)` returns `false`; in every signed one
the same call returns `true` and leaves `max() - 6 * (max() / 5)`, a
representable negative value, in `result`. -/
theorem subtract_numbers_six_steps (D : Domain) (hb : 8 ≤ D.bits) :
    (D.signed = false →
      (subtract_numbers D (numeric_limits_max D) (numeric_limits_max D / 5) 6).1 = false) ∧
    (D.signed = true →
      subtract_numbers D (numeric_limits_max D) (numeric_limits_max D / 5) 6
          = (true, numeric_limits_max D - 6 * (numeric_limits_max D / 5)) ∧
        numeric_limits_max D - 6 * (numeric_limits_max D / 5) < 0 ∧
        InDom D (numeric_limits_max D - 6 * (numeric_limits_max D / 5))) := by
  have hM := max_ge_of_bits D hb
  constructor
  · intro hs
    have hmin : numeric_limits_min D = 0 := by simp [numeric_limits_min, hs]
    have hn : ¬ InDom D (numeric_limits_max D - ((6 : Nat) : Int) * (numeric_limits_max D / 5)) := by
      unfold InDom
      push_cast
      omega
    obtain ⟨k, _, hres, _, _⟩ :=
      subtract_loop_stop D _ (max_div_five_inDom D) 6 _ (max_inDom D) hn
    unfold subtract_numbers
    rw [hres]
  · intro hs
    have hmm := min_add_max D hs
    have hn : InDom D (numeric_limits_max D - ((6 : Nat) : Int) * (numeric_limits_max D / 5)) := by
      unfold InDom
      push_cast
      omega
    refine ⟨?_, by omega, by simpa using hn⟩
    unfold subtract_numbers
    rw [subtract_loop_ok D _ (max_div_five_inDom D) 6 _ (max_inDom D) hn]
    simp

/-- Witness for the amended C3: the 8-bit unsigned and the 8-bit signed domain. -/
theorem subtract_numbers_six_steps_witness :
    8 ≤ uint8.bits ∧ 8 ≤ int8.bits ∧
      (subtract_numbers uint8 (numeric_limits_max uint8) (numeric_limits_max uint8 / 5) 6).1
        = false ∧
      subtract_numbers int8 (numeric_limits_max int8) (numeric_limits_max int8 / 5) 6
        = (true, numeric_limits_max int8 - 6 * (numeric_limits_max int8 / 5)) :=
  ⟨by decide, by decide, (subtract_numbers_six_steps uint8 (by decide)).1 rfl,
    ((subtract_numbers_six_steps int8 (by decide)).2 rfl).1⟩

/-- C4: in every integral domain `add_numbers(0, max() / 5, 5)` returns `true`
with result `5 * (max() / 5)`, which is `max()` less the remainder of `max()`
by 5; in the 8-bit unsigned domain the increment is 51 and the result 255. -/
theorem add_numbers_five_steps :
    (∀ D : Domain,
      add_numbers D 0 (numeric_limits_max D / 5) 5 = (true, 5 * (numeric_limits_max D / 5)) ∧
      5 * (numeric_limits_max D / 5) = numeric_limits_max D - numeric_limits_max D % 5) ∧
    numeric_limits_max uint8 / 5 = 51 ∧ add_numbers uint8 0 51 5 = (true, 255) := by
  refine ⟨fun D => ⟨?_, by omega⟩, by decide, by decide⟩
  have h0 := zero_le_max D
  have hm := min_le_zero D
  have hn : InDom D (0 + ((5 : Nat) : Int) * (numeric_limits_max D / 5)) := by
    unfold InDom
    push_cast
    omega
  unfold add_numbers
  rw [add_loop_ok D _ (max_div_five_inDom D) 5 0 (zero_inDom D) hn]
  simp

/-- C5: in every integral domain `subtract_numbers(max(), max() / 5, 5)` returns
`true` with result `max() - 5 * (max() / 5)`. -/
theorem subtract_numbers_five_steps (D : Domain) :
    subtract_numbers D (numeric_limits_max D) (numeric_limits_max D / 5) 5
      = (true, numeric_limits_max D - 5 * (numeric_limits_max D / 5)) := by
  have h0 := zero_le_max D
  have hm := min_le_zero D
  have hn : InDom D (numeric_limits_max D - ((5 : Nat) : Int) * (numeric_limits_max D / 5)) := by
    unfold InDom
    push_cast
    omega
  unfold subtract_numbers
  rw [subtract_loop_ok D _ (max_div_five_inDom D) 5 _ (max_inDom D) hn]
  simp

/-- C7: for start and step values of the domain, whenever the loop of
`add_numbers` has completed `j` iterations with `result = r` and the check of
the next iteration passes, the addition it then executes has an exact value
`r + increment` inside `[min(), max()]`; the sum formed in the promoted type and
the value stored by `result += increment` both equal that exact value, and
every call with more steps continues from it.  The same holds for the
subtraction executed by `subtract_numbers`. -/
theorem executed_operations_in_range (D : Domain) (start step : Int) (j : Nat) (r : Int)
    (hs : InDom D start) (hi : InDom D step) :
    (add_numbers D start step j = (true, r) → add_check D step r = false →
      InDom D (r + step) ∧ arith D (r + step) = r + step ∧
      add_assign D r step = r + step ∧
      ∀ n : Nat, add_numbers D start step (j + 1 + n) = add_loop D step n (r + step)) ∧
    (subtract_numbers D start step j = (true, r) → subtract_check D step r = false →
      InDom D (r - step) ∧ arith D (r - step) = r - step ∧
      subtract_assign D r step = r - step ∧
      ∀ n : Nat,
        subtract_numbers D start step (j + 1 + n) = subtract_loop D step n (r - step)) := by
  unfold add_numbers subtract_numbers
  constructor
  · intro hj hc
    have hr : InDom D r := by
      have := add_loop_inDom D step hi j start hs
      rwa [hj] at this
    have h1 : InDom D (r + step) := by
      by_contra h
      have := (add_check_iff D step r hi hr).mpr h
      rw [hc] at this
      exact absurd this (by simp)
    refine ⟨h1, arith_of_inDom D _ h1, add_assign_exact D step r h1, fun n => ?_⟩
    rw [Nat.add_assoc, add_loop_append D step j (1 + n) start, hj, Nat.add_comm 1 n]
    simp [add_loop, hc, add_assign_exact D step r h1]
  · intro hj hc
    have hr : InDom D r := by
      have := subtract_loop_inDom D step hi j start hs
      rwa [hj] at this
    have h1 : InDom D (r - step) := by
      by_contra h
      have := (subtract_check_iff D step r hi hr).mpr h
      rw [hc] at this
      exact absurd this (by simp)
    refine ⟨h1, arith_of_inDom D _ h1, subtract_assign_exact D step r h1, fun n => ?_⟩
    rw [Nat.add_assoc, subtract_loop_append D step j (1 + n) start, hj, Nat.add_comm 1 n]
    simp [subtract_loop, hc, subtract_assign_exact D step r h1]

/-- Witness for C7: the 8-bit signed domain, start 100, step 10, after one
completed iteration (`result = 110`). -/
theorem executed_operations_in_range_witness :
    InDom int8 100 ∧ InDom int8 10 ∧ add_numbers int8 100 10 1 = (true, 110) ∧
      add_check int8 10 110 = false ∧ InDom int8 (110 + 10) ∧
      add_assign int8 110 10 = 110 + 10 :=
  have h := (executed_operations_in_range int8 100 10 1 110 (by decide) (by decide)).1
    (by decide) (by decide)
  ⟨by decide, by decide, by decide, by decide, h.1, h.2.2.1⟩

/-- C8: for every value `x` of an integer domain the expressions of the two
checks are representable in the domain, and evaluating them in the promoted
type gives their exact value: `max() - x` when `x > 0`, `min() - x` when
`x < 0`, `min() + x` when `x > 0` and `max() + x` when `x < 0`. -/
theorem check_expressions_in_range (D : Domain) (x : Int) (hx : InDom D x) :
    (0 < x →
      InDom D (numeric_limits_max D - x) ∧
        arith D (numeric_limits_max D - x) = numeric_limits_max D - x) ∧
    (x < 0 →
      InDom D (numeric_limits_min D - x) ∧
        arith D (numeric_limits_min D - x) = numeric_limits_min D - x) ∧
    (0 < x →
      InDom D (numeric_limits_min D + x) ∧
        arith D (numeric_limits_min D + x) = numeric_limits_min D + x) ∧
    (x < 0 →
      InDom D (numeric_limits_max D + x) ∧
        arith D (numeric_limits_max D + x) = numeric_limits_max D + x) :=
  ⟨fun h => ⟨max_sub_inDom D x hx h, arith_of_inDom D _ (max_sub_inDom D x hx h)⟩,
    fun h => ⟨min_sub_inDom D x hx h, arith_of_inDom D _ (min_sub_inDom D x hx h)⟩,
    fun h => ⟨min_add_inDom D x hx h, arith_of_inDom D _ (min_add_inDom D x hx h)⟩,
    fun h => ⟨max_add_inDom D x hx h, arith_of_inDom D _ (max_add_inDom D x hx h)⟩⟩

/-- Witness for C8: the 64-bit signed domain at `x = max()` and at `x = min()`. -/
theorem check_expressions_in_range_witness :
    InDom int64 (numeric_limits_max int64) ∧ InDom int64 (numeric_limits_min int64) ∧
      InDom int64 (numeric_limits_max int64 - numeric_limits_max int64) ∧
      InDom int64 (numeric_limits_min int64 + numeric_limits_max int64) ∧
      InDom int64 (numeric_limits_min int64 - numeric_limits_min int64) ∧
      InDom int64 (numeric_limits_max int64 + numeric_limits_min int64) :=
  have hp := check_expressions_in_range int64 (numeric_limits_max int64) (by decide)
  have hn := check_expressions_in_range int64 (numeric_limits_min int64) (by decide)
  ⟨by decide, by decide, (hp.1 (by decide)).1, (hp.2.2.1 (by decide)).1,
    (hn.2.1 (by decide)).1, (hn.2.2.2 (by decide)).1⟩

/-! ## Further properties of the loops -/

theorem inDom_convex (D : Domain) (r step : Int) (n j : Nat) (hj : j ≤ n)
    (hr : InDom D r) (hn : InDom D (r + (n : Int) * step)) : InDom D (r + (j : Int) * step) := by
  have hj0 : (0 : Int) ≤ j := Int.ofNat_nonneg j
  have hjn : (j : Int) ≤ n := Int.ofNat_le.mpr hj
  rcases le_total 0 step with hs | hs
  · have h1 := mul_nonneg hj0 hs
    have h2 := mul_le_mul_of_nonneg_right hjn hs
    unfold InDom at *
    omega
  · have h1 := mul_nonpos_of_nonneg_of_nonpos hj0 hs
    have h2 := mul_le_mul_of_nonpos_right hjn hs
    unfold InDom at *
    omega

theorem neg_inDom (D : Domain) (x : Int) (hs : D.signed = true) (hx : InDom D x)
    (hmin : x ≠ numeric_limits_min D) : InDom D (-x) := by
  have := min_add_max D hs
  unfold InDom at *
  omega

theorem subtract_loop_eq_add_loop_neg (D : Domain) (decrement : Int)
    (hd : InDom D decrement) (hnd : InDom D (-decrement)) (n : Nat) (r : Int)
    (hr : InDom D r) :
    subtract_loop D decrement n r = add_loop D (-decrement) n r := by
  induction n generalizing r with
  | zero => rfl
  | succ n ih =>
    have hiff : subtract_check D decrement r = true ↔ add_check D (-decrement) r = true := by
      rw [subtract_check_iff D decrement r hd hr, add_check_iff D (-decrement) r hnd hr,
        sub_eq_add_neg]
    by_cases hc : subtract_check D decrement r = true
    · have ha := hiff.mp hc
      simp [subtract_loop, add_loop, hc, ha]
    · have ha : ¬ add_check D (-decrement) r = true := fun h => hc (hiff.mpr h)
      have h1 : InDom D (r - decrement) := by
        by_contra h
        exact hc ((subtract_check_iff D decrement r hd hr).mpr h)
      have h2 : InDom D (r + -decrement) := by rwa [← sub_eq_add_neg]
      simp only [subtract_loop, add_loop, hc, ha, if_false]
      rw [subtract_assign_exact D decrement r h1, add_assign_exact D (-decrement) r h2,
        ← sub_eq_add_neg]
      exact ih (r - decrement) h1

/-! ## Claims on the step value, the check and the two directions -/

/-- C12: for `result` and `increment` of the domain, the check of `add_numbers`
is true exactly when the exact sum `result + increment` lies outside
`[min(), max()]`; for a positive increment it is true exactly when
`max() - result < increment`. -/
theorem add_check_exact (D : Domain) (increment result : Int)
    (hi : InDom D increment) (hr : InDom D result) :
    (add_check D increment result = true ↔
      (result + increment < numeric_limits_min D ∨
        numeric_limits_max D < result + increment)) ∧
    (0 < increment →
      (add_check D increment result = true ↔ numeric_limits_max D - result < increment)) := by
  have h := add_check_iff D increment result hi hr
  unfold InDom at h hr
  constructor
  · rw [h]
    omega
  · intro hpos
    rw [h]
    omega

/-- Witness for C12: the 8-bit unsigned domain, `result = 255`, `increment = 51`. -/
theorem add_check_exact_witness :
    InDom uint8 51 ∧ InDom uint8 255 ∧ (0 : Int) < 51 ∧
      (add_check uint8 51 255 = true ↔ numeric_limits_max uint8 - 255 < 51) :=
  ⟨by decide, by decide, by decide,
    (add_check_exact uint8 51 255 (by decide) (by decide)).2 (by decide)⟩

/-- C13: in a signed domain, for every start and every decrement of the domain
other than `min()`, `subtract_numbers(start, decrement, steps)` and
`add_numbers(start, -decrement, steps)` return the same flag and leave the same
value in `result`. -/
theorem subtract_numbers_eq_add_numbers_neg (D : Domain) (start decrement : Int) (steps : Nat)
    (hsg : D.signed = true) (hs : InDom D start) (hd : InDom D decrement)
    (hmin : decrement ≠ numeric_limits_min D) :
    subtract_numbers D start decrement steps = add_numbers D start (-decrement) steps :=
  subtract_loop_eq_add_loop_neg D decrement hd (neg_inDom D decrement hsg hd hmin) steps start hs

/-- Witness for C13: the 8-bit signed domain, start -100, decrement -127, three
steps. -/
theorem subtract_numbers_eq_add_numbers_neg_witness :
    int8.signed = true ∧ InDom int8 (-100) ∧ InDom int8 (-127) ∧
      (-127 : Int) ≠ numeric_limits_min int8 ∧
      subtract_numbers int8 (-100) (-127) 3 = add_numbers int8 (-100) (-(-127)) 3 :=
  ⟨by decide, by decide, by decide, by decide,
    subtract_numbers_eq_add_numbers_neg int8 (-100) (-127) 3 (by decide) (by decide)
      (by decide) (by decide)⟩

/-- C14, refuted as stated: the 4-bit signed domain has `max() = 7`, so
`max() / 5 = 1 ≥ 1`, yet `6 * (max() / 5) = 6` does not exceed `max()` and
`add_numbers(0, 1, 6)` returns `true` with result 6. -/
theorem six_fifths_need_not_exceed_max :
    numeric_limits_max ⟨true, 4, by decide⟩ = 7 ∧
      1 ≤ numeric_limits_max ⟨true, 4, by decide⟩ / 5 ∧
      ¬ (6 * (numeric_limits_max ⟨true, 4, by decide⟩ / 5)
          > numeric_limits_max ⟨true, 4, by decide⟩) ∧
      add_numbers ⟨true, 4, by decide⟩ 0 (numeric_limits_max ⟨true, 4, by decide⟩ / 5) 6
        = (true, 6) := by
  decide

/-- C14, amended: for every integer domain, `6 * (max() / 5) > max()` holds
exactly when `max() / 5` exceeds the remainder `max() % 5`, and exactly then
`add_numbers(0, max() / 5, 6)` returns `false`; the condition holds in every
domain of at least 8 bits. -/
theorem six_fifths_exceed_max_iff (D : Domain) :
    (6 * (numeric_limits_max D / 5) > numeric_limits_max D ↔
      numeric_limits_max D % 5 < numeric_limits_max D / 5) ∧
    ((add_numbers D 0 (numeric_limits_max D / 5) 6).1 = false ↔
      numeric_limits_max D % 5 < numeric_limits_max D / 5) ∧
    (8 ≤ D.bits → numeric_limits_max D % 5 < numeric_limits_max D / 5) := by
  have h0 := zero_le_max D
  have hm := min_le_zero D
  refine ⟨by omega, ?_, fun hb => ?_⟩
  · unfold add_numbers
    by_cases hn : InDom D (0 + ((6 : Nat) : Int) * (numeric_limits_max D / 5))
    · rw [add_loop_ok D _ (max_div_five_inDom D) 6 0 (zero_inDom D) hn]
      unfold InDom at hn
      push_cast at hn
      simp only [Bool.true_eq_false, false_iff]
      omega
    · obtain ⟨k, _, hres, _, _⟩ :=
        add_loop_stop D _ (max_div_five_inDom D) 6 0 (zero_inDom D) hn
      rw [hres]
      unfold InDom at hn
      push_cast at hn
      simp only [true_iff]
      omega
  · have := max_ge_of_bits D hb
    omega

/-- Witness for the amended C14: the 8-bit unsigned domain (`255 % 5 = 0 < 51`). -/
theorem six_fifths_exceed_max_iff_witness :
    8 ≤ uint8.bits ∧ numeric_limits_max uint8 % 5 < numeric_limits_max uint8 / 5 ∧
      (add_numbers uint8 0 (numeric_limits_max uint8 / 5) 6).1 = false :=
  have h := six_fifths_exceed_max_iff uint8
  ⟨by decide, h.2.2 (by decide), h.2.1.mpr (h.2.2 (by decide))⟩

/-- C15: for start and increment of the domain (of either sign) and every step
count, `add_numbers(start, increment, steps)` returns `true` exactly when
`min() ≤ start + steps * increment ≤ max()` in exact arithmetic, and then
`result` is `start + steps * increment`. -/
theorem add_numbers_characterisation (D : Domain) (start increment : Int) (steps : Nat)
    (hs : InDom D start) (hi : InDom D increment) :
    ((add_numbers D start increment steps).1 = true ↔
      (numeric_limits_min D ≤ start + steps * increment ∧
        start + steps * increment ≤ numeric_limits_max D)) ∧
    ((add_numbers D start increment steps).1 = true →
      (add_numbers D start increment steps).2 = start + steps * increment) := by
  unfold add_numbers
  by_cases hn : InDom D (start + steps * increment)
  · rw [add_loop_ok D increment hi steps start hs hn]
    exact ⟨⟨fun _ => hn, fun _ => rfl⟩, fun _ => rfl⟩
  · obtain ⟨k, _, hres, _, _⟩ := add_loop_stop D increment hi steps start hs hn
    rw [hres]
    exact ⟨⟨fun h => absurd h (by simp), fun h => absurd h hn⟩, fun h => absurd h (by simp)⟩

/-- Witness for C15: the 8-bit signed domain, start 100, increment -30, seven
steps (`100 - 210 = -110`). -/
theorem add_numbers_characterisation_witness :
    InDom int8 100 ∧ InDom int8 (-30) ∧ (add_numbers int8 100 (-30) 7).1 = true ∧
      (add_numbers int8 100 (-30) 7).2 = 100 + ((7 : Nat) : Int) * (-30) :=
  have h := add_numbers_characterisation int8 100 (-30) 7 (by decide) (by decide)
  ⟨by decide, by decide, h.1.mpr (by decide), h.2 (h.1.mpr (by decide))⟩

/-- C16: for start and decrement of the domain (of either sign) and every step
count, `subtract_numbers(start, decrement, steps)` returns `true` exactly when
`min() ≤ start - steps * decrement ≤ max()` in exact arithmetic, and then
`result` is `start - steps * decrement`; in an unsigned domain it returns
`false` exactly when `steps * decrement > start`. -/
theorem subtract_numbers_characterisation (D : Domain) (start decrement : Int) (steps : Nat)
    (hs : InDom D start) (hd : InDom D decrement) :
    ((subtract_numbers D start decrement steps).1 = true ↔
      (numeric_limits_min D ≤ start - steps * decrement ∧
        start - steps * decrement ≤ numeric_limits_max D)) ∧
    ((subtract_numbers D start decrement steps).1 = true →
      (subtract_numbers D start decrement steps).2 = start - steps * decrement) ∧
    (D.signed = false →
      ((subtract_numbers D start decrement steps).1 = false ↔
        steps * decrement > start)) := by
  have hunsigned : D.signed = false →
      (InDom D (start - steps * decrement) ↔ ¬ steps * decrement > start) := by
    intro hu
    have hmin : numeric_limits_min D = 0 := by simp [numeric_limits_min, hu]
    have h0 : (0 : Int) ≤ (steps : Int) * decrement := by
      apply mul_nonneg (Int.ofNat_nonneg steps)
      have := hd.1
      omega
    unfold InDom at *
    omega
  unfold subtract_numbers
  by_cases hn : InDom D (start - steps * decrement)
  · rw [subtract_loop_ok D decrement hd steps start hs hn]
    refine ⟨⟨fun _ => hn, fun _ => rfl⟩, fun _ => rfl, fun hu => ?_⟩
    have := (hunsigned hu).mp hn
    simp only [Bool.true_eq_false, false_iff]
    exact this
  · obtain ⟨k, _, hres, _, _⟩ := subtract_loop_stop D decrement hd steps start hs hn
    rw [hres]
    refine ⟨⟨fun h => absurd h (by simp), fun h => absurd h hn⟩,
      fun h => absurd h (by simp), fun hu => ?_⟩
    have : steps * decrement > start := by
      by_contra h
      exact hn ((hunsigned hu).mpr h)
    simp only [true_iff]
    exact this

/-- Witness for C16: the 8-bit unsigned domain, start 255, decrement 51, six
steps (`6 * 51 = 306 > 255`). -/
theorem subtract_numbers_characterisation_witness :
    InDom uint8 255 ∧ InDom uint8 51 ∧ uint8.signed = false ∧
      ((6 : Nat) : Int) * 51 > 255 ∧ (subtract_numbers uint8 255 51 6).1 = false :=
  have h := subtract_numbers_characterisation uint8 255 51 6 (by decide) (by decide)
  ⟨by decide, by decide, rfl, by decide, (h.2.2 rfl).mpr (by decide)⟩

/-- C17: for start and step of the domain, whenever `add_numbers` returns
`false`, `result` holds `start + k * increment` where `k < steps` is the least
number of completed steps for which `start + (k + 1) * increment` lies outside
`[min(), max()]`, and that value lies inside `[min(), max()]`; likewise
`subtract_numbers` leaves `start - k * decrement`. -/
theorem value_left_on_failure (D : Domain) (start step : Int) (steps : Nat)
    (hs : InDom D start) (hi : InDom D step) :
    ((add_numbers D start step steps).1 = false →
      ∃ k : Nat, k < steps ∧ (add_numbers D start step steps).2 = start + k * step ∧
        ¬ InDom D (start + ((k : Int) + 1) * step) ∧
        (∀ j : Nat, j < k → InDom D (start + ((j : Int) + 1) * step)) ∧
        InDom D (start + k * step)) ∧
    ((subtract_numbers D start step steps).1 = false →
      ∃ k : Nat, k < steps ∧ (subtract_numbers D start step steps).2 = start - k * step ∧
        ¬ InDom D (start - ((k : Int) + 1) * step) ∧
        (∀ j : Nat, j < k → InDom D (start - ((j : Int) + 1) * step)) ∧
        InDom D (start - k * step)) := by
  unfold add_numbers subtract_numbers
  constructor
  · intro hf
    by_cases hn : InDom D (start + steps * step)
    · rw [add_loop_ok D step hi steps start hs hn] at hf
      exact absurd hf (by simp)
    · obtain ⟨k, hk, hres, hin, hout⟩ := add_loop_stop D step hi steps start hs hn
      refine ⟨k, hk, by rw [hres], hout, fun j hj => ?_, hin⟩
      have := inDom_convex D start step k (j + 1) hj hs hin
      simpa using this
  · intro hf
    by_cases hn : InDom D (start - steps * step)
    · rw [subtract_loop_ok D step hi steps start hs hn] at hf
      exact absurd hf (by simp)
    · obtain ⟨k, hk, hres, hin, hout⟩ := subtract_loop_stop D step hi steps start hs hn
      refine ⟨k, hk, by rw [hres], hout, fun j hj => ?_, hin⟩
      have hin2 : InDom D (start + (k : Int) * (-step)) := by
        have e : start + (k : Int) * (-step) = start - k * step := by ring
        rw [e]; exact hin
      have := inDom_convex D start (-step) k (j + 1) hj hs hin2
      have e : start + ((j + 1 : Nat) : Int) * (-step) = start - ((j : Int) + 1) * step := by
        push_cast; ring
      rwa [e] at this

/-- Witness for C17: the 8-bit signed domain, start -100, decrement 10, five
steps: the subtraction stops after two completed steps. -/
theorem value_left_on_failure_witness :
    InDom int8 (-100) ∧ InDom int8 10 ∧ (subtract_numbers int8 (-100) 10 5).1 = false ∧
      ∃ k : Nat, k < 5 ∧ (subtract_numbers int8 (-100) 10 5).2 = -100 - (k : Int) * 10 ∧
        ¬ InDom int8 (-100 - ((k : Int) + 1) * 10) ∧
        (∀ j : Nat, j < k → InDom int8 (-100 - ((j : Int) + 1) * 10)) ∧
        InDom int8 (-100 - (k : Int) * 10) :=
  ⟨by decide, by decide, by decide,
    (value_left_on_failure int8 (-100) 10 5 (by decide) (by decide)).2 (by decide)⟩

/-- C18: for start and step value `d` of the domain and every step count `n`, if
`add_numbers(start, d, n)` returns `true` with result `r`, then
`subtract_numbers(r, d, n)` returns `true` with result `start`; and if
`subtract_numbers(start, d, n)` returns `true` with result `r`, then
`add_numbers(r, d, n)` returns `true` with result `start`. -/
theorem add_subtract_round_trip (D : Domain) (start d : Int) (n : Nat) (r : Int)
    (hs : InDom D start) (hd : InDom D d) :
    (add_numbers D start d n = (true, r) → subtract_numbers D r d n = (true, start)) ∧
    (subtract_numbers D start d n = (true, r) → add_numbers D r d n = (true, start)) := by
  unfold add_numbers subtract_numbers
  constructor
  · intro h
    by_cases hn : InDom D (start + n * d)
    · rw [add_loop_ok D d hd n start hs hn] at h
      have hr : r = start + n * d := (Prod.mk.inj h).2.symm
      subst hr
      have hback : InDom D (start + n * d - n * d) := by simpa using hs
      rw [subtract_loop_ok D d hd n _ hn hback]
      simp
    · obtain ⟨k, _, hres, _, _⟩ := add_loop_stop D d hd n start hs hn
      rw [hres] at h
      exact absurd (Prod.mk.inj h).1 (by simp)
  · intro h
    by_cases hn : InDom D (start - n * d)
    · rw [subtract_loop_ok D d hd n start hs hn] at h
      have hr : r = start - n * d := (Prod.mk.inj h).2.symm
      subst hr
      have hback : InDom D (start - n * d + n * d) := by simpa using hs
      rw [add_loop_ok D d hd n _ hn hback]
      simp
    · obtain ⟨k, _, hres, _, _⟩ := subtract_loop_stop D d hd n start hs hn
      rw [hres] at h
      exact absurd (Prod.mk.inj h).1 (by simp)

/-- Witness for C18: the 8-bit unsigned domain, start 0, step 51, five steps. -/
theorem add_subtract_round_trip_witness :
    InDom uint8 0 ∧ InDom uint8 51 ∧ add_numbers uint8 0 51 5 = (true, 255) ∧
      subtract_numbers uint8 255 51 5 = (true, 0) :=
  ⟨by decide, by decide, by decide,
    (add_subtract_round_trip uint8 0 51 5 255 (by decide) (by decide)).1 (by decide)⟩

/-- C19: for every start, step value and step counts `m` and `n`,
`add_numbers(start, increment, m + n)` returns `true` exactly when
`add_numbers(start, increment, m)` returns `true` with some result `r` and
`add_numbers(r, increment, n)` returns `true`; and whenever the call with `m`
steps returns `true` with result `r`, the call with `m + n` steps returns what
`add_numbers(r, increment, n)` returns.  The same holds for
`subtract_numbers`. -/
theorem steps_additive (D : Domain) (start step : Int) (m n : Nat) :
    ((add_numbers D start step (m + n)).1 = true ↔
      ∃ r, add_numbers D start step m = (true, r) ∧ (add_numbers D r step n).1 = true) ∧
    (∀ r, add_numbers D start step m = (true, r) →
      add_numbers D start step (m + n) = add_numbers D r step n) ∧
    ((subtract_numbers D start step (m + n)).1 = true ↔
      ∃ r, subtract_numbers D start step m = (true, r) ∧
        (subtract_numbers D r step n).1 = true) ∧
    (∀ r, subtract_numbers D start step m = (true, r) →
      subtract_numbers D start step (m + n) = subtract_numbers D r step n) := by
  unfold add_numbers subtract_numbers
  have ha := add_loop_append D step m n start
  have hb := subtract_loop_append D step m n start
  refine ⟨⟨fun h => ?_, fun ⟨r, hr, hn⟩ => ?_⟩, fun r hr => ?_,
    ⟨fun h => ?_, fun ⟨r, hr, hn⟩ => ?_⟩, fun r hr => ?_⟩
  · by_cases hm : (add_loop D step m start).1 = true
    · rw [ha, if_pos hm] at h
      exact ⟨(add_loop D step m start).2, Prod.ext hm rfl, h⟩
    · rw [ha, if_neg hm] at h
      exact absurd h hm
  · rw [ha, hr]
    simpa using hn
  · rw [ha, hr]
    simp
  · by_cases hm : (subtract_loop D step m start).1 = true
    · rw [hb, if_pos hm] at h
      exact ⟨(subtract_loop D step m start).2, Prod.ext hm rfl, h⟩
    · rw [hb, if_neg hm] at h
      exact absurd h hm
  · rw [hb, hr]
    simpa using hn
  · rw [hb, hr]
    simp

/-- Witness for C19: the 8-bit unsigned domain, start 0, increment 51, two
steps followed by three. -/
theorem steps_additive_witness :
    add_numbers uint8 0 51 2 = (true, 102) ∧
      add_numbers uint8 0 51 (2 + 3) = add_numbers uint8 102 51 3 :=
  ⟨by decide, (steps_additive uint8 0 51 2 3).2.1 102 (by decide)⟩

/-! ## The templates at every type -/

theorem template_add_loop_append {T P : Type} (O : Ops T P) (increment : T) (m n : Nat)
    (r : T) :
    Template.add_loop O increment (m + n) r =
      if (Template.add_loop O increment m r).1 then
        Template.add_loop O increment n (Template.add_loop O increment m r).2
      else Template.add_loop O increment m r := by
  induction m generalizing r with
  | zero => simp [Template.add_loop]
  | succ m ih =>
    rw [Nat.succ_add]
    simp only [Template.add_loop]
    by_cases hc : Template.add_check O increment r = true
    · simp [hc]
    · simp only [hc, if_false]
      exact ih _

theorem template_subtract_loop_append {T P : Type} (O : Ops T P) (decrement : T) (m n : Nat)
    (r : T) :
    Template.subtract_loop O decrement (m + n) r =
      if (Template.subtract_loop O decrement m r).1 then
        Template.subtract_loop O decrement n (Template.subtract_loop O decrement m r).2
      else Template.subtract_loop O decrement m r := by
  induction m generalizing r with
  | zero => simp [Template.subtract_loop]
  | succ m ih =>
    rw [Nat.succ_add]
    simp only [Template.subtract_loop]
    by_cases hc : Template.subtract_check O decrement r = true
    · simp [hc]
    · simp only [hc, if_false]
      exact ih _

theorem add_loop_eq_template (D : Domain) (increment : Int) (n : Nat) (r : Int) :
    add_loop D increment n r = Template.add_loop (integral D) increment n r := by
  induction n generalizing r with
  | zero => rfl
  | succ n ih =>
    have hc : Template.add_check (integral D) increment r = add_check D increment r := rfl
    have ha : Template.add_assign (integral D) r increment = add_assign D r increment := rfl
    simp only [add_loop, Template.add_loop, hc, ha, ih]

theorem subtract_loop_eq_template (D : Domain) (decrement : Int) (n : Nat) (r : Int) :
    subtract_loop D decrement n r = Template.subtract_loop (integral D) decrement n r := by
  induction n generalizing r with
  | zero => rfl
  | succ n ih =>
    have hc : Template.subtract_check (integral D) decrement r
        = subtract_check D decrement r := rfl
    have ha : Template.subtract_assign (integral D) r decrement
        = subtract_assign D r decrement := rfl
    simp only [subtract_loop, Template.subtract_loop, hc, ha, ih]

theorem add_numbers_eq_template (D : Domain) (start increment : Int) (steps : Nat) :
    add_numbers D start increment steps
      = Template.add_numbers (integral D) start increment steps :=
  add_loop_eq_template D increment steps start

theorem subtract_numbers_eq_template (D : Domain) (start decrement : Int) (steps : Nat) :
    subtract_numbers D start decrement steps
      = Template.subtract_numbers (integral D) start decrement steps :=
  subtract_loop_eq_template D decrement steps start

theorem template_failure_absorbing {T P : Type} (O : Ops T P) (start step : T) (k n : Nat) :
    ((Template.add_numbers O start step k).1 = false →
      (Template.add_numbers O start step (k + n)).1 = false ∧
        Template.add_numbers O start step (k + n) = Template.add_numbers O start step k) ∧
    ((Template.subtract_numbers O start step k).1 = false →
      (Template.subtract_numbers O start step (k + n)).1 = false ∧
        Template.subtract_numbers O start step (k + n)
          = Template.subtract_numbers O start step k) := by
  unfold Template.add_numbers Template.subtract_numbers
  constructor
  · intro hf
    have e := template_add_loop_append O step k n start
    simp only [hf, Bool.false_eq_true, if_false] at e
    exact ⟨by rw [e]; exact hf, e⟩
  · intro hf
    have e := template_subtract_loop_append O step k n start
    simp only [hf, Bool.false_eq_true, if_false] at e
    exact ⟨by rw [e]; exact hf, e⟩

/-! ## A zero step value in floating point -/

/-- C9: for every type the templates are instantiated at (any operations, so
integral and floating-point alike), if `add_numbers` (resp. `subtract_numbers`)
returns `false` with `steps = k`, then for every larger step count `k + n` it
returns `false` as well, and the returned flag and the value left in `result`
are those of the call with `steps = k`.  Stated for the templates over
arbitrary operations, for the integral model and for the floating-point
model. -/
theorem failure_is_absorbing :
    (∀ {T P : Type} (O : Ops T P) (start step : T) (k n : Nat),
      ((Template.add_numbers O start step k).1 = false →
        (Template.add_numbers O start step (k + n)).1 = false ∧
          Template.add_numbers O start step (k + n) = Template.add_numbers O start step k) ∧
      ((Template.subtract_numbers O start step k).1 = false →
        (Template.subtract_numbers O start step (k + n)).1 = false ∧
          Template.subtract_numbers O start step (k + n)
            = Template.subtract_numbers O start step k)) ∧
    (∀ (D : Domain) (start step : Int) (k n : Nat),
      ((add_numbers D start step k).1 = false →
        (add_numbers D start step (k + n)).1 = false ∧
          add_numbers D start step (k + n) = add_numbers D start step k) ∧
      ((subtract_numbers D start step k).1 = false →
        (subtract_numbers D start step (k + n)).1 = false ∧
          subtract_numbers D start step (k + n) = subtract_numbers D start step k)) ∧
    (∀ (F : FloatFormat) (start step : FloatVal) (k n : Nat),
      ((Template.add_numbers (floating F) start step k).1 = false →
        (Template.add_numbers (floating F) start step (k + n)).1 = false ∧
          Template.add_numbers (floating F) start step (k + n)
            = Template.add_numbers (floating F) start step k) ∧
      ((Template.subtract_numbers (floating F) start step k).1 = false →
        (Template.subtract_numbers (floating F) start step (k + n)).1 = false ∧
          Template.subtract_numbers (floating F) start step (k + n)
            = Template.subtract_numbers (floating F) start step k)) := by
  refine ⟨fun O start step k n => template_failure_absorbing O start step k n,
    fun D start step k n => ?_,
    fun F start step k n => template_failure_absorbing (floating F) start step k n⟩
  have h := template_failure_absorbing (integral D) start step k n
  simp only [← add_numbers_eq_template, ← subtract_numbers_eq_template] at h
  exact h

/-- Witness for C9: the 8-bit unsigned domain, `add_numbers(0, 51, 6)` against
`add_numbers(0, 51, 6 + 5)`; and `float`, `add_numbers(+0.0, +inf, 1)` against
`add_numbers(+0.0, +inf, 1 + 5)`. -/
theorem failure_is_absorbing_witness :
    ((add_numbers uint8 0 51 6).1 = false ∧
      (add_numbers uint8 0 51 (6 + 5)).1 = false ∧
      add_numbers uint8 0 51 (6 + 5) = add_numbers uint8 0 51 6) ∧
    ((Template.add_numbers (floating binary32) (FloatVal.zero false) (FloatVal.inf false) 1).1
        = false ∧
      (Template.add_numbers (floating binary32) (FloatVal.zero false) (FloatVal.inf false)
        (1 + 5)).1 = false ∧
      Template.add_numbers (floating binary32) (FloatVal.zero false) (FloatVal.inf false) (1 + 5)
        = Template.add_numbers (floating binary32) (FloatVal.zero false) (FloatVal.inf false)
            1) :=
  ⟨⟨by decide, (failure_is_absorbing.2.1 uint8 0 51 6 5).1 (by decide)⟩,
    ⟨by decide,
      (failure_is_absorbing.2.2 binary32 (FloatVal.zero false) (FloatVal.inf false) 1 5).1
        (by decide)⟩⟩

/-- C10: with zero steps `add_numbers(start, increment, 0)` and
`subtract_numbers(start, decrement, 0)` both return `true` and leave the value
of `start` in `result`, for every type the templates are instantiated at and
all start, increment and decrement values: for the templates over arbitrary
operations, for the integral model and for the floating-point model (where a
NaN `start` leaves that NaN in `result`). -/
theorem zero_steps :
    (∀ {T P : Type} (O : Ops T P) (start increment decrement : T),
      Template.add_numbers O start increment 0 = (true, start) ∧
        Template.subtract_numbers O start decrement 0 = (true, start)) ∧
    (∀ (D : Domain) (start increment decrement : Int),
      add_numbers D start increment 0 = (true, start) ∧
        subtract_numbers D start decrement 0 = (true, start)) ∧
    (∀ (F : FloatFormat) (start increment decrement : FloatVal),
      Template.add_numbers (floating F) start increment 0 = (true, start) ∧
        Template.subtract_numbers (floating F) start decrement 0 = (true, start)) :=
  ⟨fun _ _ _ _ => ⟨rfl, rfl⟩, fun _ _ _ _ => ⟨rfl, rfl⟩, fun _ _ _ _ => ⟨rfl, rfl⟩⟩

end NumericOverflow
